import Mathlib

/-!
Verification of the route-table core of a Babel-style routing daemon
(`route.c`).  The table is modelled as a `List Route`; pointers into the
C array `routes[]` become indices; the kernel FIB adapter is modelled as
an oracle stream of results consumed one per `kernel_route` call.  The
external collaborators (source table, neighbour table, xroute table,
input filter) live outside this core and are modelled as read-only
functions in an environment record.  Message emission (`send_update`,
`send_request`, ...) does not touch the route table and is therefore not
part of the table-state transformers; `send_unfeasible_request` is
modelled separately as the request it would emit.
-/

/-- Daemon metric infinity (0xFFFF). -/
def INFINITY : Nat := 65535

/-- Modelled from the spec: `seqno_compare` lives in the utility module,
which is not part of this core.  The spec: `a > b` iff
`(a - b) mod 2^16` lies in `(0, 2^15)`.  This is the `> 0` test. -/
def seqno_gt (a b : Nat) : Bool :=
  decide (0 < (a % 65536 + 65536 - b % 65536) % 65536) &&
  decide ((a % 65536 + 65536 - b % 65536) % 65536 < 32768)

/-- Modelled from the spec: `seqno_plus` (utility module, not in this
core) adds to a seqno in modular 16-bit arithmetic. -/
def seqno_plus (s n : Nat) : Nat := (s + n) % 65536

/-- A source-table entry as seen by this core: the (origin, prefix-bits,
prefix-length) key plus the feasibility high-water marks. -/
structure Source where
  address : Nat
  pfx : Nat
  plen : Nat
  seqno : Nat
  metric : Nat
  time : Int
deriving DecidableEq

/-- One retained route advertisement (`struct route`). -/
structure Route where
  src : Source
  neigh : Nat
  nexthop : Nat
  refmetric : Nat
  seqno : Nat
  metric : Nat
  time : Int
  origtime : Int
  installed : Bool
deriving DecidableEq

instance : Inhabited Route :=
  ⟨{ src := { address := 0, pfx := 0, plen := 0, seqno := 0, metric := 0, time := 0 },
     neigh := 0, nexthop := 0, refmetric := 0, seqno := 0, metric := 0,
     time := 0, origtime := 0, installed := false }⟩

/-- Result of one `kernel_route` call: success, failure with
`errno = EEXIST`, or failure with any other `errno`. -/
inductive KRes
| ok
| eexist
| err
deriving DecidableEq

/-- The environment: the external collaborators of the core (source
table snapshot, neighbour costs, xroute table, input filter, martian
test, id hash), the kernel oracle, the clock, and the configured
constants.  All of these live outside `route.c`. -/
structure Env where
  oracle : Nat → KRes
  find_source : Nat → Nat → Nat → Option Source
  find_source_create : Nat → Nat → Nat → Nat → Option Source
  neighbour_cost : Nat → Nat
  find_xroute : Nat → Nat → Bool
  input_filter : Nat → Nat → Nat → Nat → Nat
  martian_pfx : Nat → Nat → Bool
  hash_id : Nat → Nat
  now : Int
  route_timeout_delay : Int
  route_gc_delay : Int
  maxroutes : Nat

/-- Well-formedness of the source table: a created entry carries the key
it was created for. -/
def EnvWF (env : Env) : Prop :=
  ∀ a p plen sq s, env.find_source_create a p plen sq = some s →
    s.pfx = p ∧ s.plen = plen

/-- The mutable state of the core: the route table (`routes[]` up to
`numroutes`), the number of kernel calls made so far (indexing the
oracle), and a ghost log of every route value passed to `flush_route`
(newest first), used to reason about which routes an operation drops. -/
structure St where
  routes : List Route
  kc : Nat
  flushedLog : List Route
deriving DecidableEq

/-- Consume one kernel-oracle result. -/
def kcall (env : Env) (st : St) : KRes × St :=
  (env.oracle st.kc, { st with kc := st.kc + 1 })

/-- Set the `installed` flag of the route at index `i` (no-op out of
range, mirroring that C pointers are always valid there). -/
def setInstalled (l : List Route) (i : Nat) (b : Bool) : List Route :=
  l.set i { l.getD i default with installed := b }

/-- `install_route`: no-op if installed; otherwise kernel ADD; a failure
with `errno` other than `EEXIST` leaves the flag clear, success or
`EEXIST` sets it. -/
def install_route (env : Env) (st : St) (i : Nat) : St :=
  if i < st.routes.length then
    if (st.routes.getD i default).installed then st
    else
      match kcall env st with
      | (KRes.err, st1) => st1
      | (_, st1) => { st1 with routes := setInstalled st1.routes i true }
  else st

/-- `uninstall_route`: no-op if not installed; otherwise kernel FLUSH,
and the flag is cleared whether or not the FLUSH succeeded. -/
def uninstall_route (env : Env) (st : St) (i : Nat) : St :=
  if i < st.routes.length then
    if (st.routes.getD i default).installed then
      match kcall env st with
      | (_, st1) => { st1 with routes := setInstalled st1.routes i false }
    else st
  else st

/-- `change_route old new`: with no old route, plain install; with an
old route that is not installed, nothing; otherwise one atomic kernel
MODIFY, and only on success are the two `installed` flags flipped. -/
def change_route (env : Env) (st : St) (old : Option Nat) (ni : Nat) : St :=
  match old with
  | none => install_route env st ni
  | some o =>
    if (st.routes.getD o default).installed then
      match kcall env st with
      | (KRes.ok, st1) =>
        { st1 with routes := setInstalled (setInstalled st1.routes o false) ni true }
      | (_, st1) => st1
    else st

/-- `change_route_metric`: if installed, kernel MODIFY and the declared
metric changes only on success; if not installed, the metric is simply
updated. -/
def change_route_metric (env : Env) (st : St) (i : Nat) (newmetric : Nat) : St :=
  if (st.routes.getD i default).installed then
    match kcall env st with
    | (KRes.ok, st1) =>
      { st1 with routes := st1.routes.set i { st1.routes.getD i default with metric := newmetric } }
    | (_, st1) => st1
  else { st with routes := st.routes.set i { st.routes.getD i default with metric := newmetric } }

/-- `update_feasible`: the Babel feasibility condition against the
source-table snapshot. -/
def update_feasible (env : Env) (a p : Nat) (plen seqno refmetric : Nat) : Bool :=
  match env.find_source a p plen with
  | none => true
  | some src =>
    if src.time < env.now - 200 then true
    else if INFINITY ≤ refmetric then true
    else seqno_gt seqno src.seqno || (src.seqno == seqno && decide (refmetric < src.metric))

/-- `route_feasible`: feasibility of a route's own advertisement. -/
def route_feasible (env : Env) (r : Route) : Bool :=
  update_feasible env r.src.address r.src.pfx r.src.plen r.seqno r.refmetric

/-- Modelled from the spec: `source_match` (source table module, not in
this core) — the source's key has the given prefix and length. -/
def source_match (s : Source) (p : Nat) (plen : Nat) : Bool :=
  s.pfx == p && s.plen == plen

/-- Index of the first list element satisfying `q` (the linear scans of
`route.c` return the first match). -/
def findIdxP (q : Route → Bool) : List Route → Option Nat
  | [] => none
  | r :: rs => if q r then some 0 else (findIdxP q rs).map (fun n => n + 1)

/-- `find_route`: first route with the given neighbour, nexthop and
prefix. -/
def find_route (l : List Route) (p : Nat) (plen neigh nexthop : Nat) : Option Nat :=
  findIdxP (fun r => r.neigh == neigh && r.nexthop == nexthop && source_match r.src p plen) l

/-- `find_installed_route`: first installed route for the prefix. -/
def find_installed_route (l : List Route) (p : Nat) (plen : Nat) : Option Nat :=
  findIdxP (fun r => r.installed && source_match r.src p plen) l

/-- The skip conditions of `find_best_route`'s scan: prefix match, not
timed out, feasible when requested, not via the excluded neighbour. -/
def fbr_keep (env : Env) (p : Nat) (plen : Nat) (feas : Bool) (excl : Option Nat)
    (r : Route) : Bool :=
  source_match r.src p plen &&
  !(decide (r.time < env.now - env.route_timeout_delay)) &&
  (!feas || route_feasible env r) &&
  (match excl with
   | none => true
   | some e => !(r.neigh == e))

/-- The scan of `find_best_route`: the accumulator holds the index and
metric of the best route so far (the C code keeps a pointer; the pointed
metric is unchanged during the scan). -/
def fbr_go (env : Env) (p : Nat) (plen : Nat) (feas : Bool) (excl : Option Nat) :
    List Route → Nat → Option (Nat × Nat) → Option (Nat × Nat)
  | [], _, best => best
  | r :: rs, i, best =>
    if fbr_keep env p plen feas excl r then
      match best with
      | some (bi, bm) =>
        if bm ≤ r.metric then fbr_go env p plen feas excl rs (i + 1) (some (bi, bm))
        else fbr_go env p plen feas excl rs (i + 1) (some (i, r.metric))
      | none => fbr_go env p plen feas excl rs (i + 1) (some (i, r.metric))
    else fbr_go env p plen feas excl rs (i + 1) best

/-- `find_best_route`, returning the index of the selected route. -/
def find_best_route (env : Env) (l : List Route) (p : Nat) (plen : Nat)
    (feas : Bool) (excl : Option Nat) : Option Nat :=
  (fbr_go env p plen feas excl l 0 none).map (fun x => x.1)

/-- `consider_route`: decide whether to install a candidate.  Source
identity is pointer equality in C; source entries are interned per key,
so it coincides with value equality here.  The messages sent after a
successful `change_route` do not affect the table and are omitted. -/
def consider_route (env : Env) (st : St) (i : Nat) : St :=
  if i < st.routes.length then
    if (st.routes.getD i default).installed then st
    else if !(route_feasible env (st.routes.getD i default)) then st
    else if env.find_xroute (st.routes.getD i default).src.pfx (st.routes.getD i default).src.plen then st
    else
      match find_installed_route st.routes (st.routes.getD i default).src.pfx (st.routes.getD i default).src.plen with
      | none => change_route env st none i
      | some o =>
        if INFINITY ≤ (st.routes.getD i default).metric then st
        else if INFINITY ≤ (st.routes.getD o default).metric then change_route env st (some o) i
        else if (st.routes.getD i default).metric + 192 ≤ (st.routes.getD o default).metric then change_route env st (some o) i
        else if (st.routes.getD o default).src ≠ (st.routes.getD i default).src then st
        else if (st.routes.getD i default).metric + 96 ≤ (st.routes.getD o default).metric then change_route env st (some o) i
        else st
  else st

/-- `route_lost`: pick the best feasible alternative and consider it;
with no alternative only messages are sent. -/
def route_lost (env : Env) (st : St) (src : Source) (oldmetric : Nat) : St :=
  match find_best_route env st.routes src.pfx src.plen true none with
  | some j => consider_route env st j
  | none => st

/-- Removal from the flat table: the last entry is copied into the freed
slot and the count drops by one. -/
def swapRemove (l : List Route) (n : Nat) : List Route :=
  (l.set n (l.getD (l.length - 1) default)).dropLast

/-- `flush_route`: uninstall if installed, swap-remove, and on loss run
`route_lost` with the old source and metric.  The removed route value is
recorded in the ghost log. -/
def flush_route (env : Env) (st : St) (n : Nat) : St :=
  if n < st.routes.length then
    let r := st.routes.getD n default
    let st0 : St := { st with flushedLog := r :: st.flushedLog }
    let st1 := if r.installed then uninstall_route env st0 n else st0
    let st2 : St := { st1 with routes := swapRemove st1.routes n }
    if r.installed then route_lost env st2 r.src r.metric else st2
  else st

/-- The request emitted by a routing message. -/
structure BRequest where
  pfx : Nat
  plen : Nat
  seqno : Nat
  id : Nat
deriving DecidableEq

/-- `send_unfeasible_request`: the seqno-resend request this call emits,
or `none` when it emits nothing. -/
def send_unfeasible_request (env : Env) (st : St) (metric : Nat) (a p : Nat)
    (plen : Nat) : Option BRequest :=
  match env.find_source a p plen with
  | none => none
  | some src =>
    match find_installed_route st.routes p plen with
    | none =>
      some { pfx := p, plen := plen,
             seqno := if INFINITY ≤ src.metric then src.seqno else seqno_plus src.seqno 1,
             id := env.hash_id src.address }
    | some ri =>
      if metric + 256 ≤ (st.routes.getD ri default).metric then
        some { pfx := p, plen := plen,
               seqno := if INFINITY ≤ src.metric then src.seqno else seqno_plus src.seqno 1,
               id := env.hash_id src.address }
      else none

/-- `trigger_route_change`: after a route changed, either look for a
better feasible route (the `- 96` comparison is C `int` arithmetic,
hence computed in `Int`) or reconsider the route itself.  The triggered
update it may send does not affect the table. -/
def trigger_route_change (env : Env) (st : St) (i : Nat) (oldsrc : Source)
    (oldmetric : Nat) : St :=
  if (st.routes.getD i default).installed then
    if oldmetric < (st.routes.getD i default).metric then
      match find_best_route env st.routes (st.routes.getD i default).src.pfx
              (st.routes.getD i default).src.plen true none with
      | some j =>
        if ((st.routes.getD j default).metric : Int) ≤ ((st.routes.getD i default).metric : Int) - 96
        then consider_route env st j
        else st
      | none => st
    else st
  else consider_route env st i

/-- `update_route_metric`: a stale route is turned into a retraction
(seqno bumped once), otherwise the metric is recomputed from refmetric
and the current link cost. -/
def update_route_metric (env : Env) (st : St) (i : Nat) : St :=
  if i < st.routes.length then
    let r := st.routes.getD i default
    if r.time < env.now - env.route_timeout_delay then
      let r1 := if r.refmetric < INFINITY then
          { r with seqno := seqno_plus r.src.seqno 1, refmetric := INFINITY }
        else r
      let st1 : St := { st with routes := st.routes.set i r1 }
      let st2 := change_route_metric env st1 i INFINITY
      trigger_route_change env st2 i r.src r.metric
    else
      let st2 := change_route_metric env st i
        (min (r.refmetric + env.neighbour_cost r.neigh) INFINITY)
      trigger_route_change env st2 i r.src r.metric
  else st

/-- The first scan of `drop_some_routes` as written: the index is never
advanced, so the loop either keeps flushing slot 0 or repeats the same
state forever; fuel exhaustion (`none`) covers divergence. -/
def drop_loop1 : Nat → Env → St → Option St
  | 0, _, _ => none
  | fuel + 1, env, st =>
    if 0 < st.routes.length then
      if !(st.routes.getD 0 default).installed && decide ((st.routes.getD 0 default).time < env.now - 90) then
        drop_loop1 fuel env (flush_route env st 0)
      else if decide (INFINITY ≤ (st.routes.getD 0 default).metric) && decide ((st.routes.getD 0 default).time < env.now - 90) then
        drop_loop1 fuel env (flush_route env st 0)
      else
        drop_loop1 fuel env st
    else some st

/-- `drop_some_routes`: the age passes, then if still full one
unfeasible route, then one uninstalled route. -/
def drop_some_routes (fuel : Nat) (env : Env) (st : St) : Option St :=
  match drop_loop1 fuel env st with
  | none => none
  | some st1 =>
    if st1.routes.length < env.maxroutes then some st1
    else
      match findIdxP (fun r => !(route_feasible env r)) st1.routes with
      | some j => some (flush_route env st1 j)
      | none =>
        match findIdxP (fun r => !r.installed) st1.routes with
        | some j => some (flush_route env st1 j)
        | none => some st1

/-- `update_route`: ingest one received update.  The result is the index
of the created or refreshed route (`none` when the update is rejected);
the outer `Option` is fuel exhaustion of `drop_some_routes`.  The
unfeasible-update request is a message and does not affect the table. -/
def update_route (fuel : Nat) (env : Env) (st : St) (a p : Nat)
    (plen seqno refmetric neigh nexthop : Nat) : Option (Option Nat × St) :=
  if env.martian_pfx p plen then some (none, st)
  else
    let add_metric := env.input_filter a p plen neigh
    if INFINITY ≤ add_metric then some (none, st)
    else
      match env.find_source_create a p plen seqno with
      | none => some (none, st)
      | some src =>
        let feasible := update_feasible env a p plen seqno refmetric
        let metric := min (refmetric + env.neighbour_cost neigh + add_metric) INFINITY
        match find_route st.routes p plen neigh nexthop with
        | some ri =>
          let r := st.routes.getD ri default
          let lost := !feasible && r.installed
          let st1 := if lost then uninstall_route env st ri else st
          let r1 := st1.routes.getD ri default
          let r2 := { r1 with
            src := src,
            time := if feasible && decide (refmetric < INFINITY) then env.now else r1.time,
            origtime := if feasible && decide (refmetric < INFINITY) && decide (INFINITY ≤ r1.refmetric)
                        then env.now else r1.origtime,
            seqno := seqno,
            refmetric := refmetric }
          let st2 : St := { st1 with routes := st1.routes.set ri r2 }
          let st3 := change_route_metric env st2 ri metric
          let st4 := if feasible then trigger_route_change env st3 ri r.src r.metric else st3
          let st5 := if lost then route_lost env st4 r.src r.metric else st4
          some (some ri, st5)
        | none =>
          if !feasible then some (none, st)
          else if INFINITY ≤ refmetric then some (none, st)
          else
            match (if env.maxroutes ≤ st.routes.length then drop_some_routes fuel env st else some st) with
            | none => none
            | some st1 =>
              if env.maxroutes ≤ st1.routes.length then some (none, st1)
              else
                let newr : Route :=
                  { src := src
                    neigh := neigh
                    nexthop := nexthop
                    refmetric := refmetric
                    seqno := seqno
                    metric := metric
                    time := env.now
                    origtime := env.now
                    installed := false }
                let st2 : St := { st1 with routes := st1.routes ++ [newr] }
                let st3 := consider_route env st2 (st2.routes.length - 1)
                some (some (st2.routes.length - 1), st3)

/-- The scan of `expire_routes`: flush GC-expired routes (repeating the
index), otherwise recompute the metric and advance.  The refresh ping it
may send is a message and does not affect the table. -/
def expire_loop : Nat → Env → St → Nat → Option St
  | 0, _, _, _ => none
  | fuel + 1, env, st, i =>
    if i < st.routes.length then
      if (st.routes.getD i default).time < env.now - env.route_gc_delay then
        expire_loop fuel env (flush_route env st i) i
      else
        expire_loop fuel env (update_route_metric env st i) (i + 1)
    else some st

/-- `expire_routes`. -/
def expire_routes (fuel : Nat) (env : Env) (st : St) : Option St :=
  expire_loop fuel env st 0

theorem getD_set_self (l : List Route) (i : Nat) (a : Route) (h : i < l.length) :
    (l.set i a).getD i default = a := by
  simp [List.getD_eq_getElem?_getD, List.getElem?_set_self h]

theorem getD_set_ne (l : List Route) (i j : Nat) (a : Route) (h : i ≠ j) :
    (l.set i a).getD j default = l.getD j default := by
  simp [List.getD_eq_getElem?_getD, List.getElem?_set_ne h]

@[simp] theorem length_setInstalled (l : List Route) (i : Nat) (b : Bool) :
    (setInstalled l i b).length = l.length := by
  simp [setInstalled]

theorem getD_setInstalled_self (l : List Route) (i : Nat) (b : Bool) (h : i < l.length) :
    (setInstalled l i b).getD i default = { l.getD i default with installed := b } := by
  unfold setInstalled
  exact getD_set_self _ _ _ h

theorem getD_setInstalled_ne (l : List Route) (i j : Nat) (b : Bool) (h : i ≠ j) :
    (setInstalled l i b).getD j default = l.getD j default := by
  unfold setInstalled
  exact getD_set_ne _ _ _ _ h

/-- The spec's modular 16-bit ordering, written as the spec words it:
`(a - b) mod 2^16` lies in the open interval `(0, 2^15)`. -/
def SeqnoGtSpec (a b : Nat) : Prop :=
  0 < (a + 2 ^ 16 - b) % 2 ^ 16 ∧ (a + 2 ^ 16 - b) % 2 ^ 16 < 2 ^ 15

/-- The spec's feasibility condition, written from the spec's words. -/
def FeasibleSpec (env : Env) (a p : Nat) (plen seqno refmetric : Nat) : Prop :=
  match env.find_source a p plen with
  | none => True
  | some src =>
    src.time < env.now - 200 ∨ INFINITY ≤ refmetric ∨
    SeqnoGtSpec seqno src.seqno ∨ (seqno = src.seqno ∧ refmetric < src.metric)

/-- Claim C2: `update_feasible` returns true exactly when the source is
unknown, or stale (older than 200 s), or the update is a retraction, or
its seqno is greater in modular 16-bit order, or equal with strictly
smaller refmetric; and `route_feasible` is `update_feasible` on the
route's own source key, seqno and refmetric. -/
theorem update_feasible_iff_spec (env : Env) (a p : Nat) (plen seqno refmetric : Nat)
    (h16 : seqno < 65536)
    (hsrc : ∀ s, env.find_source a p plen = some s → s.seqno < 65536) :
    (update_feasible env a p plen seqno refmetric = true ↔
      FeasibleSpec env a p plen seqno refmetric) ∧
    (∀ r : Route, route_feasible env r =
      update_feasible env r.src.address r.src.pfx r.src.plen r.seqno r.refmetric) := by
  constructor
  · unfold update_feasible FeasibleSpec
    cases hs : env.find_source a p plen with
    | none => simp
    | some src =>
      have hs16 : src.seqno < 65536 := hsrc src hs
      dsimp only
      by_cases h1 : src.time < env.now - 200
      · simp [h1]
      · by_cases h2 : INFINITY ≤ refmetric
        · simp [h1, h2]
        · rw [if_neg h1, if_neg h2]
          simp only [Bool.or_eq_true, Bool.and_eq_true, beq_iff_eq, decide_eq_true_eq]
          constructor
          · rintro (hgt | ⟨hseq, hm⟩)
            · refine Or.inr (Or.inr (Or.inl ?_))
              unfold seqno_gt at hgt
              simp only [Bool.and_eq_true, decide_eq_true_eq] at hgt
              unfold SeqnoGtSpec
              rw [Nat.mod_eq_of_lt h16, Nat.mod_eq_of_lt hs16] at hgt
              constructor <;> omega
            · exact Or.inr (Or.inr (Or.inr ⟨hseq.symm, hm⟩))
          · rintro (h | h | hgt | ⟨hseq, hm⟩)
            · exact absurd h h1
            · exact absurd h h2
            · refine Or.inl ?_
              unfold seqno_gt
              unfold SeqnoGtSpec at hgt
              simp only [Bool.and_eq_true, decide_eq_true_eq]
              rw [Nat.mod_eq_of_lt h16, Nat.mod_eq_of_lt hs16]
              constructor <;> omega
            · exact Or.inr ⟨hseq.symm, hm⟩
  · intro r
    rfl

/-- A fully concrete environment used by the feasibility witness. -/
def envW2 : Env :=
  { oracle := fun _ => KRes.ok
    find_source := fun _ _ _ =>
      some { address := 1, pfx := 2, plen := 64, seqno := 10, metric := 50, time := 900 }
    find_source_create := fun _ _ _ _ => none
    neighbour_cost := fun _ => 0
    find_xroute := fun _ _ => false
    input_filter := fun _ _ _ _ => 0
    martian_pfx := fun _ _ => false
    hash_id := fun _ => 0
    now := 1000
    route_timeout_delay := 160
    route_gc_delay := 180
    maxroutes := 4 }

/-- Witness for C2 at a concrete source and update. -/
theorem update_feasible_iff_spec_witness :
    FeasibleSpec envW2 1 2 64 11 40 := by
  have h := update_feasible_iff_spec envW2 1 2 64 11 40 (by decide)
    (by intro s hs
        have hse : s = { address := 1, pfx := 2, plen := 64, seqno := 10, metric := 50, time := 900 } := by
          simpa [envW2] using hs.symm
        rw [hse]
        decide)
  exact h.1.mp (by decide)

/-- Claim C8: an ADD failing with an error other than EEXIST leaves
`installed` clear; an EEXIST failure sets it; `uninstall_route` clears
the flag whatever the FLUSH returned; a failed MODIFY in
`change_route_metric` leaves the declared metric unchanged. -/
theorem installer_kernel_failure (env : Env) (st : St) (i : Nat)
    (hi : i < st.routes.length) :
    ((st.routes.getD i default).installed = false → env.oracle st.kc = KRes.err →
      (install_route env st i).routes = st.routes) ∧
    ((st.routes.getD i default).installed = false → env.oracle st.kc = KRes.eexist →
      ((install_route env st i).routes.getD i default).installed = true) ∧
    ((st.routes.getD i default).installed = true →
      ((uninstall_route env st i).routes.getD i default).installed = false) ∧
    (∀ m, (st.routes.getD i default).installed = true → env.oracle st.kc ≠ KRes.ok →
      ((change_route_metric env st i m).routes.getD i default).metric =
        (st.routes.getD i default).metric) := by
  refine ⟨?_, ?_, ?_, ?_⟩
  · intro hinst herr
    unfold install_route kcall
    rw [if_pos hi, if_neg (by simp only [Bool.not_eq_true]; exact hinst), herr]
  · intro hinst heex
    unfold install_route kcall
    rw [if_pos hi, if_neg (by simp only [Bool.not_eq_true]; exact hinst), heex]
    dsimp only
    rw [getD_setInstalled_self _ _ _ hi]
  · intro hinst
    unfold uninstall_route kcall
    rw [if_pos hi, if_pos hinst]
    dsimp only
    rw [getD_setInstalled_self _ _ _ hi]
  · intro m hinst hne
    unfold change_route_metric kcall
    rw [if_pos hinst]
    rcases hres : env.oracle st.kc with _ | _ | _
    · exact absurd hres hne
    · rfl
    · rfl

/-- A concrete environment whose kernel oracle always fails FLUSH. -/
def envW8 : Env :=
  { oracle := fun _ => KRes.err
    find_source := fun _ _ _ => none
    find_source_create := fun _ _ _ _ => none
    neighbour_cost := fun _ => 0
    find_xroute := fun _ _ => false
    input_filter := fun _ _ _ _ => 0
    martian_pfx := fun _ _ => false
    hash_id := fun _ => 0
    now := 1000
    route_timeout_delay := 160
    route_gc_delay := 180
    maxroutes := 4 }

/-- A one-route table with the route installed. -/
def stW8 : St :=
  { routes := [{ src := { address := 1, pfx := 2, plen := 64, seqno := 3, metric := 40, time := 990 }
                 neigh := 7, nexthop := 9, refmetric := 10, seqno := 3, metric := 20
                 time := 995, origtime := 995, installed := true }]
    kc := 0
    flushedLog := [] }

/-- Witness for C8: even with a failing FLUSH the flag is cleared. -/
theorem installer_kernel_failure_witness :
    ((uninstall_route envW8 stW8 0).routes.getD 0 default).installed = false :=
  (installer_kernel_failure envW8 stW8 0 (by decide)).2.2.1 (by decide)

/-- Claim C10: with no source-table entry for (origin, prefix, plen),
`send_unfeasible_request` emits nothing, whatever the installed route
situation for the prefix is. -/
theorem send_unfeasible_request_needs_source (env : Env) (st : St)
    (metric a p plen : Nat) (h : env.find_source a p plen = none) :
    send_unfeasible_request env st metric a p plen = none := by
  unfold send_unfeasible_request
  rw [h]

/-- A concrete environment with an empty source table. -/
def envW10 : Env :=
  { oracle := fun _ => KRes.ok
    find_source := fun _ _ _ => none
    find_source_create := fun _ _ _ _ => none
    neighbour_cost := fun _ => 0
    find_xroute := fun _ _ => false
    input_filter := fun _ _ _ _ => 0
    martian_pfx := fun _ _ => false
    hash_id := fun _ => 0
    now := 1000
    route_timeout_delay := 160
    route_gc_delay := 180
    maxroutes := 4 }

/-- Witness for C10: empty table, so there is also no installed route,
and still no request is sent. -/
theorem send_unfeasible_request_needs_source_witness :
    send_unfeasible_request envW10 { routes := [], kc := 0, flushedLog := [] } 100 1 2 64 = none :=
  send_unfeasible_request_needs_source envW10 _ 100 1 2 64 rfl

theorem getD_append_lt (l l' : List Route) (j : Nat) (h : j < l.length) :
    (l ++ l').getD j default = l.getD j default := by
  simp [List.getD_eq_getElem?_getD, List.getElem?_append_left h]

theorem getD_append_len (l : List Route) (r : Route) :
    (l ++ [r]).getD l.length default = r := by
  simp [List.getD_eq_getElem?_getD, List.getElem?_append_right (Nat.le_refl l.length)]

/-- Invariant of the `find_best_route` scan: after the processed part
`front`, the accumulator is `none` exactly when no processed route was
kept, and otherwise holds the index and metric of the earliest
smallest-metric kept route. -/
def FbrInv (env : Env) (p plen : Nat) (feas : Bool) (excl : Option Nat)
    (front : List Route) : Option (Nat × Nat) → Prop
  | none => ∀ j, j < front.length → fbr_keep env p plen feas excl (front.getD j default) = false
  | some (bi, bm) =>
      bi < front.length ∧
      fbr_keep env p plen feas excl (front.getD bi default) = true ∧
      bm = (front.getD bi default).metric ∧
      (∀ j, j < front.length → fbr_keep env p plen feas excl (front.getD j default) = true →
        bm ≤ (front.getD j default).metric) ∧
      (∀ j, j < bi → fbr_keep env p plen feas excl (front.getD j default) = true →
        bm < (front.getD j default).metric)

theorem fbr_inv_skip (env : Env) (p plen : Nat) (feas : Bool) (excl : Option Nat)
    (front : List Route) (best : Option (Nat × Nat)) (r : Route)
    (hk : fbr_keep env p plen feas excl r = false)
    (h : FbrInv env p plen feas excl front best) :
    FbrInv env p plen feas excl (front ++ [r]) best := by
  cases best with
  | none =>
    intro j hj
    simp only [List.length_append, List.length_singleton] at hj
    rcases (by omega : j < front.length ∨ j = front.length) with hj' | hj'
    · rw [getD_append_lt _ _ _ hj']
      exact h j hj'
    · rw [hj', getD_append_len]
      exact hk
  | some bb =>
    obtain ⟨bi, bm⟩ := bb
    obtain ⟨h1, h2, h3, h4, h5⟩ := h
    refine ⟨by simp; omega, ?_, ?_, ?_, ?_⟩
    · rw [getD_append_lt _ _ _ h1]; exact h2
    · rw [getD_append_lt _ _ _ h1]; exact h3
    · intro j hj hkj
      simp only [List.length_append, List.length_singleton] at hj
      rcases (by omega : j < front.length ∨ j = front.length) with hj' | hj'
      · rw [getD_append_lt _ _ _ hj'] at hkj ⊢
        exact h4 j hj' hkj
      · rw [hj', getD_append_len] at hkj
        exact absurd hkj (by simp [hk])
    · intro j hj hkj
      rw [getD_append_lt _ _ _ (Nat.lt_of_lt_of_le hj (Nat.le_of_lt h1))] at hkj ⊢
      exact h5 j hj hkj

theorem fbr_inv_take (env : Env) (p plen : Nat) (feas : Bool) (excl : Option Nat)
    (front : List Route) (r : Route)
    (hk : fbr_keep env p plen feas excl r = true)
    (hmin : ∀ j, j < front.length → fbr_keep env p plen feas excl (front.getD j default) = true →
      r.metric < (front.getD j default).metric) :
    FbrInv env p plen feas excl (front ++ [r]) (some (front.length, r.metric)) := by
  refine ⟨by simp, ?_, ?_, ?_, ?_⟩
  · rw [getD_append_len]; exact hk
  · rw [getD_append_len]
  · intro j hj hkj
    simp only [List.length_append, List.length_singleton] at hj
    rcases (by omega : j < front.length ∨ j = front.length) with hj' | hj'
    · rw [getD_append_lt _ _ _ hj'] at hkj ⊢
      exact Nat.le_of_lt (hmin j hj' hkj)
    · rw [hj', getD_append_len]
  · intro j hj hkj
    rw [getD_append_lt _ _ _ hj] at hkj ⊢
    exact hmin j hj hkj

theorem fbr_inv_keepbest (env : Env) (p plen : Nat) (feas : Bool) (excl : Option Nat)
    (front : List Route) (bi bm : Nat) (r : Route)
    (hk : fbr_keep env p plen feas excl r = true) (hle : bm ≤ r.metric)
    (h : FbrInv env p plen feas excl front (some (bi, bm))) :
    FbrInv env p plen feas excl (front ++ [r]) (some (bi, bm)) := by
  obtain ⟨h1, h2, h3, h4, h5⟩ := h
  refine ⟨by simp; omega, ?_, ?_, ?_, ?_⟩
  · rw [getD_append_lt _ _ _ h1]; exact h2
  · rw [getD_append_lt _ _ _ h1]; exact h3
  · intro j hj hkj
    simp only [List.length_append, List.length_singleton] at hj
    rcases (by omega : j < front.length ∨ j = front.length) with hj' | hj'
    · rw [getD_append_lt _ _ _ hj'] at hkj ⊢
      exact h4 j hj' hkj
    · rw [hj', getD_append_len]
      exact hle
  · intro j hj hkj
    rw [getD_append_lt _ _ _ (Nat.lt_of_lt_of_le hj (Nat.le_of_lt h1))] at hkj ⊢
    exact h5 j hj hkj

theorem fbr_go_inv (env : Env) (p plen : Nat) (feas : Bool) (excl : Option Nat)
    (rs : List Route) :
    ∀ (front : List Route) (best : Option (Nat × Nat)),
      FbrInv env p plen feas excl front best →
      FbrInv env p plen feas excl (front ++ rs)
        (fbr_go env p plen feas excl rs front.length best) := by
  induction rs with
  | nil =>
    intro front best h
    simpa [fbr_go] using h
  | cons r rs ih =>
    intro front best h
    have hfr : (front ++ [r]) ++ rs = front ++ r :: rs := by simp
    have hlen : (front ++ [r]).length = front.length + 1 := by simp
    simp only [fbr_go]
    by_cases hk : fbr_keep env p plen feas excl r
    · rw [if_pos hk]
      cases best with
      | none =>
        have hstep := fbr_inv_take env p plen feas excl front r hk
          (by intro j hj hkj
              rw [h j hj] at hkj
              exact Bool.noConfusion hkj)
        have := ih (front ++ [r]) (some (front.length, r.metric)) hstep
        rw [hfr, hlen] at this
        exact this
      | some bb =>
        obtain ⟨bi, bm⟩ := bb
        dsimp only
        by_cases hle : bm ≤ r.metric
        · rw [if_pos hle]
          have hstep := fbr_inv_keepbest env p plen feas excl front bi bm r hk hle h
          have := ih (front ++ [r]) (some (bi, bm)) hstep
          rw [hfr, hlen] at this
          exact this
        · rw [if_neg hle]
          have hstep := fbr_inv_take env p plen feas excl front r hk
            (by intro j hj hkj
                obtain ⟨h1, h2, h3, h4, h5⟩ := h
                exact Nat.lt_of_lt_of_le (Nat.lt_of_not_le hle) (h4 j hj hkj))
          have := ih (front ++ [r]) (some (front.length, r.metric)) hstep
          rw [hfr, hlen] at this
          exact this
    · rw [if_neg hk]
      have hstep := fbr_inv_skip env p plen feas excl front best r (Bool.eq_false_iff.mpr hk) h
      have := ih (front ++ [r]) best hstep
      rw [hfr, hlen] at this
      exact this

/-- Claim C9: `find_best_route` returns nothing exactly when every route
is skipped (wrong prefix, timed out, unfeasible when `feasible_only`,
or via the excluded neighbour); otherwise it returns a kept route of
minimal metric, the earliest in scan order among the minima. -/
theorem find_best_route_spec (env : Env) (l : List Route) (p plen : Nat)
    (feas : Bool) (excl : Option Nat) :
    (find_best_route env l p plen feas excl = none ↔
      ∀ j, j < l.length → fbr_keep env p plen feas excl (l.getD j default) = false) ∧
    (∀ b, find_best_route env l p plen feas excl = some b →
      b < l.length ∧
      fbr_keep env p plen feas excl (l.getD b default) = true ∧
      (∀ j, j < l.length → fbr_keep env p plen feas excl (l.getD j default) = true →
        (l.getD b default).metric ≤ (l.getD j default).metric) ∧
      (∀ j, j < b → fbr_keep env p plen feas excl (l.getD j default) = true →
        (l.getD b default).metric < (l.getD j default).metric)) := by
  have hbase : FbrInv env p plen feas excl [] none := by
    intro j hj
    simp at hj
  have hmain := fbr_go_inv env p plen feas excl l [] none hbase
  simp only [List.nil_append, List.length_nil] at hmain
  constructor
  · unfold find_best_route
    cases hgo : fbr_go env p plen feas excl l 0 none with
    | none =>
      rw [hgo] at hmain
      exact ⟨fun _ => hmain, fun _ => rfl⟩
    | some bb =>
      obtain ⟨bi, bm⟩ := bb
      rw [hgo] at hmain
      obtain ⟨h1, h2, _, _, _⟩ := hmain
      constructor
      · intro hc
        simp at hc
      · intro hall
        rw [hall bi h1] at h2
        exact Bool.noConfusion h2
  · intro b hb
    unfold find_best_route at hb
    cases hgo : fbr_go env p plen feas excl l 0 none with
    | none =>
      rw [hgo] at hb
      simp at hb
    | some bb =>
      obtain ⟨bi, bm⟩ := bb
      rw [hgo] at hb
      rw [hgo] at hmain
      obtain ⟨h1, h2, h3, h4, h5⟩ := hmain
      have hb2 : bi = b := by simpa using hb
      subst hb2
      refine ⟨h1, h2, ?_, ?_⟩
      · intro j hj hkj
        rw [← h3]
        exact h4 j hj hkj
      · intro j hj hkj
        rw [← h3]
        exact h5 j hj hkj

/-- A concrete environment for the selector witness. -/
def envW9 : Env :=
  { oracle := fun _ => KRes.ok
    find_source := fun _ _ _ => none
    find_source_create := fun _ _ _ _ => none
    neighbour_cost := fun _ => 0
    find_xroute := fun _ _ => false
    input_filter := fun _ _ _ _ => 0
    martian_pfx := fun _ _ => false
    hash_id := fun _ => 0
    now := 1000
    route_timeout_delay := 160
    route_gc_delay := 180
    maxroutes := 4 }

/-- Witness for C9: on a table whose only route for the prefix has timed
out, the selector returns nothing. -/
theorem find_best_route_spec_witness :
    find_best_route envW9
      [{ src := { address := 1, pfx := 2, plen := 64, seqno := 3, metric := 40, time := 990 }
         neigh := 7, nexthop := 9, refmetric := 10, seqno := 3, metric := 20
         time := 100, origtime := 100, installed := true }] 2 64 true none = none :=
  (find_best_route_spec envW9 _ 2 64 true none).1.mpr (by decide)

theorem findIdxP_none (q : Route → Bool) : ∀ (l : List Route),
    findIdxP q l = none ↔ ∀ j, j < l.length → q (l.getD j default) = false := by
  intro l
  induction l with
  | nil => simp [findIdxP]
  | cons r rs ih =>
    by_cases hq : q r
    · simp only [findIdxP, if_pos hq]
      constructor
      · intro hc
        exact Option.noConfusion hc
      · intro hall
        have h0 := hall 0 (by simp)
        rw [List.getD_cons_zero, hq] at h0
        exact Bool.noConfusion h0
    · simp only [findIdxP, if_neg hq, Option.map_eq_none']
      rw [ih]
      constructor
      · intro hall j hj
        cases j with
        | zero =>
          rw [List.getD_cons_zero]
          exact Bool.eq_false_iff.mpr hq
        | succ j =>
          rw [List.getD_cons_succ]
          exact hall j (by simpa using hj)
      · intro hall j hj
        have hx := hall (j + 1) (by simpa using hj)
        rw [List.getD_cons_succ] at hx
        exact hx

theorem findIdxP_some (q : Route → Bool) : ∀ (l : List Route) (o : Nat),
    findIdxP q l = some o →
    o < l.length ∧ q (l.getD o default) = true ∧
      ∀ j, j < o → q (l.getD j default) = false := by
  intro l
  induction l with
  | nil =>
    intro o h
    exact Option.noConfusion h
  | cons r rs ih =>
    intro o h
    by_cases hq : q r
    · simp only [findIdxP, if_pos hq] at h
      cases h
      refine ⟨by simp, ?_, ?_⟩
      · rw [List.getD_cons_zero]
        exact hq
      · intro j hj
        omega
    · simp only [findIdxP, if_neg hq] at h
      cases hrs : findIdxP q rs with
      | none =>
        rw [hrs] at h
        exact Option.noConfusion h
      | some o' =>
        rw [hrs] at h
        have ho : o = o' + 1 := by simpa using h.symm
        subst ho
        obtain ⟨ha, hb, hc⟩ := ih o' hrs
        refine ⟨by simpa using Nat.succ_lt_succ ha, ?_, ?_⟩
        · rw [List.getD_cons_succ]
          exact hb
        · intro j hj
          cases j with
          | zero =>
            rw [List.getD_cons_zero]
            exact Bool.eq_false_iff.mpr hq
          | succ j =>
            rw [List.getD_cons_succ]
            exact hc j (by omega)

/-- Claim C3: for a feasible, uninstalled candidate with no xroute for
its prefix, `consider_route` installs it when nothing is installed for
the prefix, and otherwise installs it exactly when its metric is finite
and the current route's metric is infinite, or beats the candidate by
192, or by 96 with the same source; in every other situation the state
is returned unchanged. -/
theorem consider_route_decision (env : Env) (st : St) (i : Nat)
    (hi : i < st.routes.length)
    (hni : (st.routes.getD i default).installed = false)
    (hfeas : route_feasible env (st.routes.getD i default) = true)
    (hxr : env.find_xroute (st.routes.getD i default).src.pfx
      (st.routes.getD i default).src.plen = false)
    (hok : ∀ n, env.oracle n = KRes.ok) :
    (find_installed_route st.routes (st.routes.getD i default).src.pfx
        (st.routes.getD i default).src.plen = none →
      ((consider_route env st i).routes.getD i default).installed = true) ∧
    (∀ o, find_installed_route st.routes (st.routes.getD i default).src.pfx
        (st.routes.getD i default).src.plen = some o →
      (((consider_route env st i).routes.getD i default).installed = true ↔
        ((st.routes.getD i default).metric < INFINITY ∧
          (INFINITY ≤ (st.routes.getD o default).metric ∨
           (st.routes.getD i default).metric + 192 ≤ (st.routes.getD o default).metric ∨
           ((st.routes.getD o default).src = (st.routes.getD i default).src ∧
            (st.routes.getD i default).metric + 96 ≤ (st.routes.getD o default).metric)))) ∧
      ((¬ ((st.routes.getD i default).metric < INFINITY ∧
          (INFINITY ≤ (st.routes.getD o default).metric ∨
           (st.routes.getD i default).metric + 192 ≤ (st.routes.getD o default).metric ∨
           ((st.routes.getD o default).src = (st.routes.getD i default).src ∧
            (st.routes.getD i default).metric + 96 ≤ (st.routes.getD o default).metric)))) →
        consider_route env st i = st)) := by
  constructor
  · intro hfir
    unfold consider_route
    rw [if_pos hi, if_neg (by rw [hni]; decide), if_neg (by rw [hfeas]; decide),
      if_neg (by rw [hxr]; decide), hfir]
    dsimp only
    unfold change_route
    dsimp only
    unfold install_route kcall
    rw [if_pos hi, if_neg (by rw [hni]; decide), hok st.kc]
    dsimp only
    rw [getD_setInstalled_self _ _ _ hi]
  · intro o hfir
    have hq := (findIdxP_some _ st.routes o hfir).2.1
    have hcur_inst : (st.routes.getD o default).installed = true :=
      (Bool.and_eq_true _ _ |>.mp hq).1
    have hio : i ≠ o := by
      intro he
      rw [he, hcur_inst] at hni
      exact Bool.noConfusion hni
    have hinstall : ((change_route env st (some o) i).routes.getD i default).installed = true := by
      unfold change_route
      dsimp only
      unfold kcall
      rw [if_pos hcur_inst, hok st.kc]
      dsimp only
      rw [getD_setInstalled_self _ _ _ (by simpa using hi)]
    unfold consider_route
    rw [if_pos hi, if_neg (by rw [hni]; decide), if_neg (by rw [hfeas]; decide),
      if_neg (by rw [hxr]; decide), hfir]
    dsimp only
    by_cases hm1 : INFINITY ≤ (st.routes.getD i default).metric
    · rw [if_pos hm1]
      refine ⟨?_, fun _ => rfl⟩
      constructor
      · intro h
        rw [hni] at h
        exact Bool.noConfusion h
      · intro hc
        exact absurd hc.1 (by omega)
    · rw [if_neg hm1]
      by_cases h2 : INFINITY ≤ (st.routes.getD o default).metric
      · rw [if_pos h2]
        refine ⟨⟨fun _ => ⟨by omega, Or.inl h2⟩, fun _ => hinstall⟩, ?_⟩
        intro hc
        exact absurd ⟨by omega, Or.inl h2⟩ hc
      · rw [if_neg h2]
        by_cases h3 : (st.routes.getD i default).metric + 192 ≤ (st.routes.getD o default).metric
        · rw [if_pos h3]
          refine ⟨⟨fun _ => ⟨by omega, Or.inr (Or.inl h3)⟩, fun _ => hinstall⟩, ?_⟩
          intro hc
          exact absurd ⟨by omega, Or.inr (Or.inl h3)⟩ hc
        · rw [if_neg h3]
          by_cases h4 : (st.routes.getD o default).src = (st.routes.getD i default).src
          · rw [if_neg (by intro hc; exact hc h4)]
            by_cases h5 : (st.routes.getD i default).metric + 96 ≤ (st.routes.getD o default).metric
            · rw [if_pos h5]
              refine ⟨⟨fun _ => ⟨by omega, Or.inr (Or.inr ⟨h4, h5⟩)⟩, fun _ => hinstall⟩, ?_⟩
              intro hc
              exact absurd ⟨by omega, Or.inr (Or.inr ⟨h4, h5⟩)⟩ hc
            · rw [if_neg h5]
              refine ⟨?_, fun _ => rfl⟩
              constructor
              · intro h
                rw [hni] at h
                exact Bool.noConfusion h
              · rintro ⟨_, hd | hd | ⟨_, hd⟩⟩
                · exact absurd hd h2
                · exact absurd hd h3
                · exact absurd hd h5
          · rw [if_pos h4]
            refine ⟨?_, fun _ => rfl⟩
            constructor
            · intro h
              rw [hni] at h
              exact Bool.noConfusion h
            · rintro ⟨_, hd | hd | ⟨he, _⟩⟩
              · exact absurd hd h2
              · exact absurd hd h3
              · exact absurd he h4

/-- A concrete environment for the selection-policy witness. -/
def envW3 : Env :=
  { oracle := fun _ => KRes.ok
    find_source := fun _ _ _ => none
    find_source_create := fun _ _ _ _ => none
    neighbour_cost := fun _ => 0
    find_xroute := fun _ _ => false
    input_filter := fun _ _ _ _ => 0
    martian_pfx := fun _ _ => false
    hash_id := fun _ => 0
    now := 1000
    route_timeout_delay := 160
    route_gc_delay := 180
    maxroutes := 4 }

/-- A one-route table whose route is feasible and not installed. -/
def stW3 : St :=
  { routes := [{ src := { address := 1, pfx := 2, plen := 64, seqno := 3, metric := 40, time := 990 }
                 neigh := 7, nexthop := 9, refmetric := 10, seqno := 3, metric := 20
                 time := 995, origtime := 995, installed := false }]
    kc := 0
    flushedLog := [] }

/-- Witness for C3: with nothing installed for the prefix, the feasible
candidate is installed. -/
theorem consider_route_decision_witness :
    ((consider_route envW3 stW3 0).routes.getD 0 default).installed = true :=
  (consider_route_decision envW3 stW3 0 (by decide) (by decide) (by decide)
    (by decide) (fun _ => rfl)).1 (by decide)

/-- Two routes may not both be installed for the same prefix. -/
def RouteOk (r r' : Route) : Prop :=
  ¬(r.installed = true ∧ r'.installed = true ∧
    r.src.pfx = r'.src.pfx ∧ r.src.plen = r'.src.plen)

instance (r r' : Route) : Decidable (RouteOk r r') := by
  unfold RouteOk
  infer_instance

/-- The at-most-one-installed-per-prefix invariant of the route table. -/
def TblInv (l : List Route) : Prop :=
  ∀ i, i < l.length → ∀ j, j < l.length → i ≠ j →
    RouteOk (l.getD i default) (l.getD j default)

instance (l : List Route) : Decidable (TblInv l) := by
  unfold TblInv
  infer_instance

theorem routeok_symm (r r' : Route) (h : RouteOk r r') : RouteOk r' r := by
  intro hc
  exact h ⟨hc.2.1, hc.1, hc.2.2.1.symm, hc.2.2.2.symm⟩

theorem routeok_uninst_left (r r' : Route) (h : r.installed = false) : RouteOk r r' := by
  intro hc
  rw [h] at hc
  exact Bool.noConfusion hc.1

theorem routeok_transfer (r r' x : Route)
    (hin : r'.installed = r.installed) (hp : r'.src.pfx = r.src.pfx)
    (hl : r'.src.plen = r.src.plen) (h : RouteOk r x) : RouteOk r' x := by
  intro hc
  exact h ⟨hin ▸ hc.1, hc.2.1, hp ▸ hc.2.2.1, hl ▸ hc.2.2.2⟩

theorem inv_set (l : List Route) (i : Nat) (r' : Route) (hiL : i < l.length)
    (hInv : TblInv l)
    (hok : ∀ j, j < l.length → j ≠ i → RouteOk r' (l.getD j default)) :
    TblInv (l.set i r') := by
  intro a ha b hb hab
  rw [List.length_set] at ha hb
  by_cases hai : a = i
  · subst hai
    rw [getD_set_self _ _ _ hiL, getD_set_ne _ _ _ _ hab]
    exact hok b hb (Ne.symm hab)
  · by_cases hbi : b = i
    · subst hbi
      rw [getD_set_ne _ _ _ _ (Ne.symm hai), getD_set_self _ _ _ hiL]
      exact routeok_symm _ _ (hok a ha hai)
    · rw [getD_set_ne _ _ _ _ (Ne.symm hai), getD_set_ne _ _ _ _ (Ne.symm hbi)]
      exact hInv a ha b hb hab

theorem inv_set_any (l : List Route) (i : Nat) (r' : Route)
    (hInv : TblInv l)
    (hok : ∀ j, j < l.length → j ≠ i → RouteOk r' (l.getD j default)) :
    TblInv (l.set i r') := by
  by_cases hiL : i < l.length
  · exact inv_set l i r' hiL hInv hok
  · rw [List.set_eq_of_length_le (Nat.le_of_not_lt hiL)]
    exact hInv

theorem inv_setInstalled_false (l : List Route) (i : Nat) (hInv : TblInv l) :
    TblInv (setInstalled l i false) :=
  inv_set_any l i _ hInv (fun j _ _ => routeok_uninst_left _ _ rfl)

theorem inv_setInstalled_true (l : List Route) (i : Nat) (hInv : TblInv l)
    (hfree : ∀ j, j < l.length → j ≠ i → (l.getD j default).installed = true →
      ¬((l.getD j default).src.pfx = (l.getD i default).src.pfx ∧
        (l.getD j default).src.plen = (l.getD i default).src.plen)) :
    TblInv (setInstalled l i true) := by
  refine inv_set_any l i _ hInv ?_
  intro j hj hji hc
  exact hfree j hj hji hc.2.1 ⟨hc.2.2.1.symm, hc.2.2.2.symm⟩

theorem inv_set_samefields (l : List Route) (i : Nat) (r' : Route) (hInv : TblInv l)
    (hin : r'.installed = (l.getD i default).installed)
    (hp : r'.src.pfx = (l.getD i default).src.pfx)
    (hl : r'.src.plen = (l.getD i default).src.plen) :
    TblInv (l.set i r') := by
  refine inv_set_any l i _ hInv ?_
  intro j hj hji
  by_cases hiL : i < l.length
  · exact routeok_transfer _ _ _ hin hp hl (hInv i hiL j hj (Ne.symm hji))
  · have hd : l.getD i default = default := by
      simp [List.getD_eq_getElem?_getD, List.getElem?_eq_none (Nat.le_of_not_lt hiL)]
    rw [hd] at hin
    exact routeok_uninst_left _ _ hin

theorem getD_dropLast (l : List Route) (j : Nat) (h : j < l.length - 1) :
    l.dropLast.getD j default = l.getD j default := by
  simp only [List.getD_eq_getElem?_getD, List.getElem?_dropLast, if_pos h]

theorem inv_swapRemove (l : List Route) (n : Nat) (hInv : TblInv l) :
    TblInv (swapRemove l n) := by
  intro a ha b hb hab
  have hlen : (swapRemove l n).length = l.length - 1 := by
    simp [swapRemove]
  rw [hlen] at ha hb
  have hgd : ∀ t, t < l.length - 1 →
      (swapRemove l n).getD t default =
        (if t = n then l.getD (l.length - 1) default else l.getD t default) := by
    intro t ht
    unfold swapRemove
    rw [getD_dropLast _ _ (by simpa using ht)]
    by_cases htn : t = n
    · subst htn
      rw [if_pos rfl, getD_set_self _ _ _ (by omega)]
    · rw [if_neg htn, getD_set_ne _ _ _ _ (fun he => htn he.symm)]
  rw [hgd a ha, hgd b hb]
  by_cases han : a = n
  · rw [if_pos han]
    by_cases hbn : b = n
    · exact absurd (han.trans hbn.symm) hab
    · rw [if_neg hbn]
      exact hInv (l.length - 1) (by omega) b (by omega) (by omega)
  · rw [if_neg han]
    by_cases hbn : b = n
    · rw [if_pos hbn]
      exact hInv a (by omega) (l.length - 1) (by omega) (by omega)
    · rw [if_neg hbn]
      exact hInv a (by omega) b (by omega) hab

theorem inv_append_uninst (l : List Route) (r : Route) (hInv : TblInv l)
    (hr : r.installed = false) : TblInv (l ++ [r]) := by
  intro a ha b hb hab
  rw [List.length_append, List.length_singleton] at ha hb
  by_cases haL : a < l.length
  · by_cases hbL : b < l.length
    · rw [getD_append_lt _ _ _ haL, getD_append_lt _ _ _ hbL]
      exact hInv a haL b hbL hab
    · have hbv : b = l.length := by omega
      subst hbv
      rw [getD_append_lt _ _ _ haL, getD_append_len]
      exact routeok_symm _ _ (routeok_uninst_left _ _ hr)
  · have hav : a = l.length := by omega
    subst hav
    rw [getD_append_len]
    exact routeok_uninst_left _ _ hr

/-- No route other than `ni` itself (and the exempted old route) is
installed for `ni`'s prefix: the precondition under which installing
`ni` keeps the table invariant. -/
def InstallFree (l : List Route) (ni : Nat) (exempt : Option Nat) : Prop :=
  ∀ j, j < l.length → j ≠ ni → exempt ≠ some j →
    (l.getD j default).installed = true →
    ¬((l.getD j default).src.pfx = (l.getD ni default).src.pfx ∧
      (l.getD j default).src.plen = (l.getD ni default).src.plen)

theorem inv_install_route (env : Env) (st : St) (i : Nat) (hInv : TblInv st.routes)
    (hfree : InstallFree st.routes i none) :
    TblInv (install_route env st i).routes := by
  unfold install_route
  by_cases hiL : i < st.routes.length
  · rw [if_pos hiL]
    by_cases hin : (st.routes.getD i default).installed = true
    · rw [if_pos hin]
      exact hInv
    · rw [if_neg hin]
      unfold kcall
      rcases hres : env.oracle st.kc with _ | _ | _
      · dsimp only
        exact inv_setInstalled_true _ _ hInv
          (fun j hj hji => hfree j hj hji (fun hc => Option.noConfusion hc))
      · dsimp only
        exact inv_setInstalled_true _ _ hInv
          (fun j hj hji => hfree j hj hji (fun hc => Option.noConfusion hc))
      · dsimp only
        exact hInv
  · rw [if_neg hiL]
    exact hInv

theorem inv_uninstall_route (env : Env) (st : St) (i : Nat) (hInv : TblInv st.routes) :
    TblInv (uninstall_route env st i).routes := by
  unfold uninstall_route
  by_cases hiL : i < st.routes.length
  · rw [if_pos hiL]
    by_cases hin : (st.routes.getD i default).installed = true
    · rw [if_pos hin]
      unfold kcall
      dsimp only
      exact inv_setInstalled_false _ _ hInv
    · rw [if_neg hin]
      exact hInv
  · rw [if_neg hiL]
    exact hInv

theorem src_setInstalled (l : List Route) (i j : Nat) (b : Bool) :
    ((setInstalled l i b).getD j default).src = (l.getD j default).src := by
  by_cases hij : i = j
  · subst hij
    by_cases hiL : i < l.length
    · rw [getD_setInstalled_self _ _ _ hiL]
    · unfold setInstalled
      rw [List.set_eq_of_length_le (Nat.le_of_not_lt hiL)]
  · rw [getD_setInstalled_ne _ _ _ _ hij]

theorem inv_change_route (env : Env) (st : St) (old : Option Nat) (ni : Nat)
    (hInv : TblInv st.routes) (hfree : InstallFree st.routes ni old) :
    TblInv (change_route env st old ni).routes := by
  cases old with
  | none => exact inv_install_route env st ni hInv hfree
  | some o =>
    unfold change_route
    dsimp only
    by_cases hin : (st.routes.getD o default).installed = true
    · rw [if_pos hin]
      unfold kcall
      rcases hres : env.oracle st.kc with _ | _ | _
      · dsimp only
        refine inv_setInstalled_true _ _ (inv_setInstalled_false _ _ hInv) ?_
        intro j hj hji hjinst hc
        rw [length_setInstalled] at hj
        simp only [src_setInstalled] at hc
        by_cases hjo : j = o
        · subst hjo
          rw [getD_setInstalled_self _ _ _ hj] at hjinst
          exact Bool.noConfusion hjinst
        · rw [getD_setInstalled_ne _ _ _ _ (fun he => hjo he.symm)] at hjinst
          exact hfree j hj hji (fun he => hjo (Option.some.inj he).symm) hjinst hc
      · dsimp only
        exact hInv
      · dsimp only
        exact hInv
    · rw [if_neg hin]
      exact hInv

theorem inv_change_route_metric (env : Env) (st : St) (i m : Nat)
    (hInv : TblInv st.routes) :
    TblInv (change_route_metric env st i m).routes := by
  unfold change_route_metric
  by_cases hin : (st.routes.getD i default).installed = true
  · rw [if_pos hin]
    unfold kcall
    rcases hres : env.oracle st.kc with _ | _ | _
    · dsimp only
      exact inv_set_samefields _ _ _ hInv rfl rfl rfl
    · dsimp only
      exact hInv
    · dsimp only
      exact hInv
  · rw [if_neg hin]
    exact inv_set_samefields _ _ _ hInv rfl rfl rfl

theorem inv_consider_route (env : Env) (st : St) (i : Nat) (hInv : TblInv st.routes) :
    TblInv (consider_route env st i).routes := by
  unfold consider_route
  by_cases hiL : i < st.routes.length
  · rw [if_pos hiL]
    by_cases hin : (st.routes.getD i default).installed = true
    · rw [if_pos hin]
      exact hInv
    rw [if_neg hin]
    by_cases hfe : (!(route_feasible env (st.routes.getD i default))) = true
    · rw [if_pos hfe]
      exact hInv
    rw [if_neg hfe]
    by_cases hxr : env.find_xroute (st.routes.getD i default).src.pfx
        (st.routes.getD i default).src.plen = true
    · rw [if_pos hxr]
      exact hInv
    rw [if_neg hxr]
    cases hfir : find_installed_route st.routes (st.routes.getD i default).src.pfx
        (st.routes.getD i default).src.plen with
    | none =>
      dsimp only
      refine inv_change_route env st none i hInv ?_
      intro j hj hji _ hjinst hc
      have hall := (findIdxP_none _ st.routes).mp hfir j hj
      rw [hjinst] at hall
      simp only [Bool.true_and] at hall
      unfold source_match at hall
      rw [hc.1, hc.2] at hall
      simp at hall
    | some o =>
      dsimp only
      have hfreeS : InstallFree st.routes i (some o) := by
        intro j hj hji hjo hjinst hc
        have hq := findIdxP_some _ st.routes o hfir
        have hoL := hq.1
        have hoinst : (st.routes.getD o default).installed = true :=
          (Bool.and_eq_true _ _ |>.mp hq.2.1).1
        have homatch := (Bool.and_eq_true _ _ |>.mp hq.2.1).2
        simp only [source_match, Bool.and_eq_true, beq_iff_eq] at homatch
        have hjo' : j ≠ o := fun he => hjo (by rw [he])
        refine hInv o hoL j hj (Ne.symm hjo') ?_
        exact ⟨hoinst, hjinst, homatch.1.trans hc.1.symm, homatch.2.trans hc.2.symm⟩
      by_cases h1 : INFINITY ≤ (st.routes.getD i default).metric
      · rw [if_pos h1]
        exact hInv
      rw [if_neg h1]
      by_cases h2 : INFINITY ≤ (st.routes.getD o default).metric
      · rw [if_pos h2]
        exact inv_change_route env st (some o) i hInv hfreeS
      rw [if_neg h2]
      by_cases h3 : (st.routes.getD i default).metric + 192 ≤ (st.routes.getD o default).metric
      · rw [if_pos h3]
        exact inv_change_route env st (some o) i hInv hfreeS
      rw [if_neg h3]
      by_cases h4 : (st.routes.getD o default).src ≠ (st.routes.getD i default).src
      · rw [if_pos h4]
        exact hInv
      rw [if_neg h4]
      by_cases h5 : (st.routes.getD i default).metric + 96 ≤ (st.routes.getD o default).metric
      · rw [if_pos h5]
        exact inv_change_route env st (some o) i hInv hfreeS
      · rw [if_neg h5]
        exact hInv
  · rw [if_neg hiL]
    exact hInv

theorem inv_route_lost (env : Env) (st : St) (src : Source) (oldmetric : Nat)
    (hInv : TblInv st.routes) :
    TblInv (route_lost env st src oldmetric).routes := by
  unfold route_lost
  cases hfb : find_best_route env st.routes src.pfx src.plen true none with
  | some j =>
    dsimp only
    exact inv_consider_route env st j hInv
  | none =>
    dsimp only
    exact hInv

theorem inv_flush_route (env : Env) (st : St) (n : Nat) (hInv : TblInv st.routes) :
    TblInv (flush_route env st n).routes := by
  unfold flush_route
  by_cases hnL : n < st.routes.length
  · rw [if_pos hnL]
    dsimp only
    by_cases hin : (st.routes.getD n default).installed = true
    · rw [if_pos hin, if_pos hin]
      refine inv_route_lost env _ _ _ ?_
      exact inv_swapRemove _ _
        (inv_uninstall_route env { st with flushedLog := st.routes.getD n default :: st.flushedLog } n hInv)
    · rw [if_neg hin, if_neg hin]
      exact inv_swapRemove _ _ hInv
  · rw [if_neg hnL]
    exact hInv

theorem inv_trigger_route_change (env : Env) (st : St) (i : Nat) (oldsrc : Source)
    (oldmetric : Nat) (hInv : TblInv st.routes) :
    TblInv (trigger_route_change env st i oldsrc oldmetric).routes := by
  unfold trigger_route_change
  by_cases h1 : (st.routes.getD i default).installed = true
  · rw [if_pos h1]
    by_cases h2 : oldmetric < (st.routes.getD i default).metric
    · rw [if_pos h2]
      cases hfb : find_best_route env st.routes (st.routes.getD i default).src.pfx
          (st.routes.getD i default).src.plen true none with
      | some j =>
        dsimp only
        by_cases h3 : ((st.routes.getD j default).metric : Int) ≤
            ((st.routes.getD i default).metric : Int) - 96
        · rw [if_pos h3]
          exact inv_consider_route env st j hInv
        · rw [if_neg h3]
          exact hInv
      | none =>
        dsimp only
        exact hInv
    · rw [if_neg h2]
      exact hInv
  · rw [if_neg h1]
    exact inv_consider_route env st i hInv

theorem inv_update_route_metric (env : Env) (st : St) (i : Nat)
    (hInv : TblInv st.routes) :
    TblInv (update_route_metric env st i).routes := by
  unfold update_route_metric
  by_cases hiL : i < st.routes.length
  · rw [if_pos hiL]
    dsimp only
    by_cases hst : (st.routes.getD i default).time < env.now - env.route_timeout_delay
    · rw [if_pos hst]
      refine inv_trigger_route_change env _ _ _ _ ?_
      refine inv_change_route_metric env _ _ _ ?_
      refine inv_set_samefields _ _ _ hInv ?_ ?_ ?_
      · split
        · rfl
        · rfl
      · split
        · rfl
        · rfl
      · split
        · rfl
        · rfl
    · rw [if_neg hst]
      exact inv_trigger_route_change env _ _ _ _ (inv_change_route_metric env _ _ _ hInv)
  · rw [if_neg hiL]
    exact hInv

theorem inv_drop_loop1 : ∀ (fuel : Nat) (env : Env) (st st' : St),
    TblInv st.routes → drop_loop1 fuel env st = some st' → TblInv st'.routes := by
  intro fuel
  induction fuel with
  | zero =>
    intro env st st' _ h
    exact Option.noConfusion h
  | succ fuel ih =>
    intro env st st' hInv h
    rw [drop_loop1] at h
    by_cases h0 : 0 < st.routes.length
    · rw [if_pos h0] at h
      by_cases hc1 : (!(st.routes.getD 0 default).installed &&
          decide ((st.routes.getD 0 default).time < env.now - 90)) = true
      · rw [if_pos hc1] at h
        exact ih env _ st' (inv_flush_route env st 0 hInv) h
      · rw [if_neg hc1] at h
        by_cases hc2 : (decide (INFINITY ≤ (st.routes.getD 0 default).metric) &&
            decide ((st.routes.getD 0 default).time < env.now - 90)) = true
        · rw [if_pos hc2] at h
          exact ih env _ st' (inv_flush_route env st 0 hInv) h
        · rw [if_neg hc2] at h
          exact ih env st st' hInv h
    · rw [if_neg h0] at h
      injection h with h2
      rw [← h2]
      exact hInv

theorem drop_loop1_empty : ∀ (fuel : Nat) (env : Env) (st st' : St),
    drop_loop1 fuel env st = some st' → st'.routes = [] := by
  intro fuel
  induction fuel with
  | zero =>
    intro env st st' h
    exact Option.noConfusion h
  | succ fuel ih =>
    intro env st st' h
    rw [drop_loop1] at h
    by_cases h0 : 0 < st.routes.length
    · rw [if_pos h0] at h
      by_cases hc1 : (!(st.routes.getD 0 default).installed &&
          decide ((st.routes.getD 0 default).time < env.now - 90)) = true
      · rw [if_pos hc1] at h
        exact ih env _ st' h
      · rw [if_neg hc1] at h
        by_cases hc2 : (decide (INFINITY ≤ (st.routes.getD 0 default).metric) &&
            decide ((st.routes.getD 0 default).time < env.now - 90)) = true
        · rw [if_pos hc2] at h
          exact ih env _ st' h
        · rw [if_neg hc2] at h
          exact ih env st st' h
    · rw [if_neg h0] at h
      injection h with h2
      rw [← h2]
      exact List.length_eq_zero.mp (by omega)

theorem drop_some_routes_empty (fuel : Nat) (env : Env) (st st' : St)
    (h : drop_some_routes fuel env st = some st') : st'.routes = [] := by
  unfold drop_some_routes at h
  cases hl : drop_loop1 fuel env st with
  | none =>
    rw [hl] at h
    exact Option.noConfusion h
  | some st1 =>
    rw [hl] at h
    dsimp only at h
    have he := drop_loop1_empty fuel env st st1 hl
    by_cases hlt : st1.routes.length < env.maxroutes
    · rw [if_pos hlt] at h
      injection h with h2
      rw [← h2]
      exact he
    · rw [if_neg hlt] at h
      rw [he] at h
      simp only [findIdxP] at h
      injection h with h2
      rw [← h2]
      exact he

theorem inv_drop_some_routes (fuel : Nat) (env : Env) (st st' : St)
    (hInv : TblInv st.routes) (h : drop_some_routes fuel env st = some st') :
    TblInv st'.routes := by
  have he := drop_some_routes_empty fuel env st st' h
  rw [he]
  intro a ha
  simp at ha

theorem inv_expire_loop : ∀ (fuel : Nat) (env : Env) (st : St) (i : Nat) (st' : St),
    TblInv st.routes → expire_loop fuel env st i = some st' → TblInv st'.routes := by
  intro fuel
  induction fuel with
  | zero =>
    intro env st i st' _ h
    exact Option.noConfusion h
  | succ fuel ih =>
    intro env st i st' hInv h
    rw [expire_loop] at h
    by_cases h0 : i < st.routes.length
    · rw [if_pos h0] at h
      by_cases hc1 : (st.routes.getD i default).time < env.now - env.route_gc_delay
      · rw [if_pos hc1] at h
        exact ih env _ i st' (inv_flush_route env st i hInv) h
      · rw [if_neg hc1] at h
        exact ih env _ (i + 1) st' (inv_update_route_metric env st i hInv) h
    · rw [if_neg h0] at h
      injection h with h2
      rw [← h2]
      exact hInv

theorem src_uninstall_route (env : Env) (st : St) (i j : Nat) :
    ((uninstall_route env st i).routes.getD j default).src =
      (st.routes.getD j default).src := by
  unfold uninstall_route
  by_cases hiL : i < st.routes.length
  · rw [if_pos hiL]
    by_cases hin : (st.routes.getD i default).installed = true
    · rw [if_pos hin]
      unfold kcall
      dsimp only
      rw [src_setInstalled]
    · rw [if_neg hin]
  · rw [if_neg hiL]

theorem inv_update_route (fuel : Nat) (env : Env) (st : St)
    (a p plen seqno refmetric neigh nexthop : Nat) (res : Option Nat) (st' : St)
    (hEnv : EnvWF env) (hInv : TblInv st.routes)
    (h : update_route fuel env st a p plen seqno refmetric neigh nexthop = some (res, st')) :
    TblInv st'.routes := by
  unfold update_route at h
  by_cases hmart : env.martian_pfx p plen = true
  · rw [if_pos hmart] at h
    injection h with h2
    rw [Prod.mk.injEq] at h2
    rw [← h2.2]
    exact hInv
  rw [if_neg hmart] at h
  dsimp only at h
  by_cases hfil : INFINITY ≤ env.input_filter a p plen neigh
  · rw [if_pos hfil] at h
    injection h with h2
    rw [Prod.mk.injEq] at h2
    rw [← h2.2]
    exact hInv
  rw [if_neg hfil] at h
  rcases hsrc : env.find_source_create a p plen seqno with _ | src
  · rw [hsrc] at h
    dsimp only at h
    injection h with h2
    rw [Prod.mk.injEq] at h2
    rw [← h2.2]
    exact hInv
  rw [hsrc] at h
  dsimp only at h
  rcases hfr : find_route st.routes p plen neigh nexthop with _ | ri
  · rw [hfr] at h
    dsimp only at h
    by_cases hfe : (!update_feasible env a p plen seqno refmetric) = true
    · rw [if_pos hfe] at h
      injection h with h2
      rw [Prod.mk.injEq] at h2
      rw [← h2.2]
      exact hInv
    rw [if_neg hfe] at h
    by_cases hrm : INFINITY ≤ refmetric
    · rw [if_pos hrm] at h
      injection h with h2
      rw [Prod.mk.injEq] at h2
      rw [← h2.2]
      exact hInv
    rw [if_neg hrm] at h
    by_cases hfull : env.maxroutes ≤ st.routes.length
    · rw [if_pos hfull] at h
      cases hdrop : drop_some_routes fuel env st with
      | none =>
        rw [hdrop] at h
        exact Option.noConfusion h
      | some st1 =>
        rw [hdrop] at h
        dsimp only at h
        have hInv1 := inv_drop_some_routes fuel env st st1 hInv hdrop
        by_cases hfull1 : env.maxroutes ≤ st1.routes.length
        · rw [if_pos hfull1] at h
          injection h with h2
          rw [Prod.mk.injEq] at h2
          rw [← h2.2]
          exact hInv1
        · rw [if_neg hfull1] at h
          injection h with h2
          rw [Prod.mk.injEq] at h2
          rw [← h2.2]
          exact inv_consider_route env _ _ (inv_append_uninst _ _ hInv1 rfl)
    · rw [if_neg hfull] at h
      dsimp only at h
      rw [if_neg hfull] at h
      injection h with h2
      rw [Prod.mk.injEq] at h2
      rw [← h2.2]
      exact inv_consider_route env _ _ (inv_append_uninst _ _ hInv rfl)
  · rw [hfr] at h
    dsimp only at h
    injection h with h2
    rw [Prod.mk.injEq] at h2
    rw [← h2.2]
    have hfind := findIdxP_some _ st.routes ri hfr
    have hriL := hfind.1
    have hmatch := hfind.2.1
    simp only [Bool.and_eq_true, beq_iff_eq] at hmatch
    have hsm := hmatch.2
    unfold source_match at hsm
    simp only [Bool.and_eq_true, beq_iff_eq] at hsm
    have hkey := hEnv a p plen seqno src hsrc
    by_cases hlost : (!update_feasible env a p plen seqno refmetric &&
        (st.routes.getD ri default).installed) = true
    · rw [if_pos hlost, if_pos hlost]
      refine inv_route_lost env _ _ _ ?_
      by_cases hfeas : update_feasible env a p plen seqno refmetric = true
      · rw [if_pos hfeas]
        refine inv_trigger_route_change env _ _ _ _ ?_
        refine inv_change_route_metric env _ _ _ ?_
        refine inv_set_samefields _ _ _ (inv_uninstall_route env st ri hInv) rfl ?_ ?_
        · rw [src_uninstall_route, hkey.1, hsm.1]
        · rw [src_uninstall_route, hkey.2, hsm.2]
      · rw [if_neg hfeas]
        refine inv_change_route_metric env _ _ _ ?_
        refine inv_set_samefields _ _ _ (inv_uninstall_route env st ri hInv) rfl ?_ ?_
        · rw [src_uninstall_route, hkey.1, hsm.1]
        · rw [src_uninstall_route, hkey.2, hsm.2]
    · rw [if_neg hlost, if_neg hlost]
      by_cases hfeas : update_feasible env a p plen seqno refmetric = true
      · rw [if_pos hfeas]
        refine inv_trigger_route_change env _ _ _ _ ?_
        refine inv_change_route_metric env _ _ _ ?_
        refine inv_set_samefields _ _ _ hInv rfl ?_ ?_
        · rw [hkey.1, hsm.1]
        · rw [hkey.2, hsm.2]
      · rw [if_neg hfeas]
        refine inv_change_route_metric env _ _ _ ?_
        refine inv_set_samefields _ _ _ hInv rfl ?_ ?_
        · rw [hkey.1, hsm.1]
        · rw [hkey.2, hsm.2]

/-- Claim C1 (amended): from a table satisfying the at-most-one-installed
invariant, `update_route`, `consider_route`, `flush_route` and
`expire_routes` preserve it unconditionally; `change_route` and
`install_route` preserve it provided no route other than the candidate
(and `change_route`'s old route) is installed for the candidate's
prefix. -/
theorem table_invariant_preservation (env : Env) (st : St)
    (hEnv : EnvWF env) (hInv : TblInv st.routes) :
    (∀ fuel a p plen seqno refmetric neigh nexthop res st',
      update_route fuel env st a p plen seqno refmetric neigh nexthop = some (res, st') →
      TblInv st'.routes) ∧
    (∀ i, TblInv (consider_route env st i).routes) ∧
    (∀ old ni, InstallFree st.routes ni old →
      TblInv (change_route env st old ni).routes) ∧
    (∀ i, InstallFree st.routes i none →
      TblInv (install_route env st i).routes) ∧
    (∀ n, TblInv (flush_route env st n).routes) ∧
    (∀ fuel st', expire_routes fuel env st = some st' → TblInv st'.routes) := by
  refine ⟨?_, ?_, ?_, ?_, ?_, ?_⟩
  · intro fuel a p plen seqno refmetric neigh nexthop res st' h
    exact inv_update_route fuel env st a p plen seqno refmetric neigh nexthop res st' hEnv hInv h
  · intro i
    exact inv_consider_route env st i hInv
  · intro old ni hfree
    exact inv_change_route env st old ni hInv hfree
  · intro i hfree
    exact inv_install_route env st i hInv hfree
  · intro n
    exact inv_flush_route env st n hInv
  · intro fuel st' h
    exact inv_expire_loop fuel env st 0 st' hInv h

/-- An environment whose kernel always succeeds and whose collaborators
are all trivial. -/
def envTriv : Env :=
  { oracle := fun _ => KRes.ok
    find_source := fun _ _ _ => none
    find_source_create := fun _ _ _ _ => none
    neighbour_cost := fun _ => 0
    find_xroute := fun _ _ => false
    input_filter := fun _ _ _ _ => 0
    martian_pfx := fun _ _ => false
    hash_id := fun _ => 0
    now := 1000
    route_timeout_delay := 160
    route_gc_delay := 180
    maxroutes := 4 }

/-- An installed route for prefix 2/64. -/
def rInst : Route :=
  { src := { address := 1, pfx := 2, plen := 64, seqno := 0, metric := 0, time := 0 }
    neigh := 1, nexthop := 5, refmetric := 10, seqno := 0, metric := 10
    time := 990, origtime := 990, installed := true }

/-- An uninstalled route for the same prefix 2/64 via another
neighbour. -/
def rUninst : Route :=
  { src := { address := 9, pfx := 2, plen := 64, seqno := 0, metric := 0, time := 0 }
    neigh := 2, nexthop := 6, refmetric := 10, seqno := 0, metric := 30
    time := 990, origtime := 990, installed := false }

/-- A table with an installed and an uninstalled route for prefix 2/64. -/
def stTwo : St := { routes := [rInst, rUninst], kc := 0, flushedLog := [] }

/-- Counterexample to C1 as stated: calling the public `install_route`
directly on the second route of a two-route table that satisfies the
invariant yields two installed routes for prefix 2/64. -/
theorem table_invariant_counterexample :
    TblInv stTwo.routes ∧ ¬ TblInv (install_route envTriv stTwo 1).routes := by
  decide

/-- Witness for the amended C1 at a concrete table: `flush_route`
preserves the invariant. -/
theorem table_invariant_preservation_witness :
    TblInv (flush_route envTriv stTwo 0).routes :=
  (table_invariant_preservation envTriv stTwo
    (fun _ _ _ _ _ hc => Option.noConfusion hc) (by decide)).2.2.2.2.1 0

/-- Every installed route carries a finite metric. -/
def FiniteInstalled (l : List Route) : Prop :=
  ∀ i, i < l.length → (l.getD i default).installed = true →
    (l.getD i default).metric < INFINITY

instance (l : List Route) : Decidable (FiniteInstalled l) := by
  unfold FiniteInstalled
  infer_instance

/-- A stale installed route (older than `route_timeout_delay`). -/
def rStale : Route :=
  { src := { address := 1, pfx := 2, plen := 64, seqno := 0, metric := 0, time := 0 }
    neigh := 1, nexthop := 5, refmetric := 10, seqno := 0, metric := 20
    time := 0, origtime := 0, installed := true }

/-- A one-route table holding only the stale installed route. -/
def stStale : St := { routes := [rStale], kc := 0, flushedLog := [] }

/-- Counterexample to C4 as stated: `update_route_metric` on a stale
installed route turns it into a retraction with metric `INFINITY` while
leaving it installed (the kernel MODIFY succeeds). -/
theorem installed_finite_counterexample :
    FiniteInstalled stStale.routes ∧
    ¬ FiniteInstalled (update_route_metric envTriv stStale 0).routes := by
  decide

/-- Claim C4 (amended): the `metric < INFINITY` guard of
`consider_route` protects only prefixes that already have an installed
route: with an installed route present, an `INFINITY`-metric candidate
is never installed and the state is returned unchanged. -/
theorem installed_finite_amended (env : Env) (st : St) (i o : Nat)
    (hm : INFINITY ≤ (st.routes.getD i default).metric)
    (hfir : find_installed_route st.routes (st.routes.getD i default).src.pfx
      (st.routes.getD i default).src.plen = some o) :
    consider_route env st i = st := by
  unfold consider_route
  by_cases hiL : i < st.routes.length
  · rw [if_pos hiL]
    by_cases h1 : (st.routes.getD i default).installed = true
    · rw [if_pos h1]
    · rw [if_neg h1]
      by_cases h2 : (!(route_feasible env (st.routes.getD i default))) = true
      · rw [if_pos h2]
      · rw [if_neg h2]
        by_cases h3 : env.find_xroute (st.routes.getD i default).src.pfx
            (st.routes.getD i default).src.plen = true
        · rw [if_pos h3]
        · rw [if_neg h3, hfir]
          dsimp only
          rw [if_pos hm]
  · rw [if_neg hiL]

/-- An `INFINITY`-metric candidate for prefix 2/64. -/
def rRetr : Route :=
  { src := { address := 9, pfx := 2, plen := 64, seqno := 0, metric := 0, time := 0 }
    neigh := 2, nexthop := 6, refmetric := 65535, seqno := 0, metric := 65535
    time := 990, origtime := 990, installed := false }

/-- Installed route plus a retraction candidate for the same prefix. -/
def stRetr : St := { routes := [rInst, rRetr], kc := 0, flushedLog := [] }

/-- Witness for the amended C4. -/
theorem installed_finite_amended_witness :
    consider_route envTriv stRetr 1 = stRetr :=
  installed_finite_amended envTriv stRetr 1 0 (by decide) (by decide)

/-- Claim C7: every rejected `update_route` call (martian prefix,
filter block, source allocation failure, unfeasible or retracted update
with no matching route, or table still full) returns `none` and leaves
the route table exactly as it was. -/
theorem update_route_reject_unchanged (fuel : Nat) (env : Env) (st : St)
    (a p plen seqno refmetric neigh nexthop : Nat) (st' : St)
    (hmax : 1 ≤ env.maxroutes)
    (h : update_route fuel env st a p plen seqno refmetric neigh nexthop = some (none, st')) :
    st'.routes = st.routes := by
  unfold update_route at h
  by_cases hmart : env.martian_pfx p plen = true
  · rw [if_pos hmart] at h
    injection h with h2
    rw [Prod.mk.injEq] at h2
    rw [← h2.2]
  rw [if_neg hmart] at h
  dsimp only at h
  by_cases hfil : INFINITY ≤ env.input_filter a p plen neigh
  · rw [if_pos hfil] at h
    injection h with h2
    rw [Prod.mk.injEq] at h2
    rw [← h2.2]
  rw [if_neg hfil] at h
  rcases hsrc : env.find_source_create a p plen seqno with _ | src
  · rw [hsrc] at h
    dsimp only at h
    injection h with h2
    rw [Prod.mk.injEq] at h2
    rw [← h2.2]
  rw [hsrc] at h
  dsimp only at h
  rcases hfr : find_route st.routes p plen neigh nexthop with _ | ri
  · rw [hfr] at h
    dsimp only at h
    by_cases hfe : (!update_feasible env a p plen seqno refmetric) = true
    · rw [if_pos hfe] at h
      injection h with h2
      rw [Prod.mk.injEq] at h2
      rw [← h2.2]
    rw [if_neg hfe] at h
    by_cases hrm : INFINITY ≤ refmetric
    · rw [if_pos hrm] at h
      injection h with h2
      rw [Prod.mk.injEq] at h2
      rw [← h2.2]
    rw [if_neg hrm] at h
    by_cases hfull : env.maxroutes ≤ st.routes.length
    · rw [if_pos hfull] at h
      cases hdrop : drop_some_routes fuel env st with
      | none =>
        rw [hdrop] at h
        exact Option.noConfusion h
      | some st1 =>
        rw [hdrop] at h
        dsimp only at h
        have he := drop_some_routes_empty fuel env st st1 hdrop
        by_cases hfull1 : env.maxroutes ≤ st1.routes.length
        · exfalso
          rw [he] at hfull1
          simp at hfull1
          omega
        · rw [if_neg hfull1] at h
          injection h with h2
          rw [Prod.mk.injEq] at h2
          exact Option.noConfusion h2.1
    · rw [if_neg hfull] at h
      dsimp only at h
      rw [if_neg hfull] at h
      injection h with h2
      rw [Prod.mk.injEq] at h2
      exact Option.noConfusion h2.1
  · rw [hfr] at h
    dsimp only at h
    injection h with h2
    rw [Prod.mk.injEq] at h2
    exact Option.noConfusion h2.1

/-- An environment that rejects every prefix as martian. -/
def envMart : Env :=
  { oracle := fun _ => KRes.ok
    find_source := fun _ _ _ => none
    find_source_create := fun _ _ _ _ => none
    neighbour_cost := fun _ => 0
    find_xroute := fun _ _ => false
    input_filter := fun _ _ _ _ => 0
    martian_pfx := fun _ _ => true
    hash_id := fun _ => 0
    now := 1000
    route_timeout_delay := 160
    route_gc_delay := 180
    maxroutes := 4 }

/-- Witness for C7: a martian update is rejected and the table of two
routes is untouched. -/
theorem update_route_reject_unchanged_witness :
    ∃ st', update_route 1 envMart stTwo 1 2 64 3 10 7 9 = some (none, st') ∧
      st'.routes = stTwo.routes :=
  ⟨stTwo, by decide,
    update_route_reject_unchanged 1 envMart stTwo 1 2 64 3 10 7 9 stTwo
      (by decide) (by decide)⟩

/-- A full store (capacity 1) whose only route is fresh, installed and
finite: no drop condition applies to it. -/
def envFull : Env :=
  { oracle := fun _ => KRes.ok
    find_source := fun _ _ _ => none
    find_source_create := fun _ _ _ _ => none
    neighbour_cost := fun _ => 0
    find_xroute := fun _ _ => false
    input_filter := fun _ _ _ _ => 0
    martian_pfx := fun _ _ => false
    hash_id := fun _ => 0
    now := 1000
    route_timeout_delay := 160
    route_gc_delay := 180
    maxroutes := 1 }

/-- The full one-route table for the capacity scan. -/
def stFresh : St := { routes := [rInst], kc := 0, flushedLog := [] }

theorem drop_loop1_stuck : ∀ fuel : Nat, drop_loop1 fuel envFull stFresh = none := by
  intro fuel
  induction fuel with
  | zero => rfl
  | succ fuel ih =>
    rw [drop_loop1]
    rw [if_pos (by decide), if_neg (by decide), if_neg (by decide)]
    exact ih

/-- Claim C5: the first scan of `drop_some_routes` never advances its
index, so on a full table whose slot-0 route matches neither drop
condition (here: fresh, installed, finite metric) the scan never reaches
the end of the table — the procedure diverges for every fuel bound. -/
theorem drop_some_routes_nonterminating : ∀ fuel : Nat,
    drop_some_routes fuel envFull stFresh = none := by
  intro fuel
  unfold drop_some_routes
  rw [drop_loop1_stuck fuel]

theorem log_install_route (env : Env) (st : St) (i : Nat) :
    (install_route env st i).flushedLog = st.flushedLog := by
  unfold install_route
  by_cases hiL : i < st.routes.length
  · rw [if_pos hiL]
    by_cases hin : (st.routes.getD i default).installed = true
    · rw [if_pos hin]
    · rw [if_neg hin]
      unfold kcall
      rcases hres : env.oracle st.kc with _ | _ | _ <;> rfl
  · rw [if_neg hiL]

theorem log_uninstall_route (env : Env) (st : St) (i : Nat) :
    (uninstall_route env st i).flushedLog = st.flushedLog := by
  unfold uninstall_route
  by_cases hiL : i < st.routes.length
  · rw [if_pos hiL]
    by_cases hin : (st.routes.getD i default).installed = true
    · rw [if_pos hin]
      unfold kcall
      rfl
    · rw [if_neg hin]
  · rw [if_neg hiL]

theorem log_change_route (env : Env) (st : St) (old : Option Nat) (ni : Nat) :
    (change_route env st old ni).flushedLog = st.flushedLog := by
  cases old with
  | none => exact log_install_route env st ni
  | some o =>
    unfold change_route
    dsimp only
    by_cases hin : (st.routes.getD o default).installed = true
    · rw [if_pos hin]
      unfold kcall
      rcases hres : env.oracle st.kc with _ | _ | _ <;> rfl
    · rw [if_neg hin]

theorem log_consider_route (env : Env) (st : St) (i : Nat) :
    (consider_route env st i).flushedLog = st.flushedLog := by
  unfold consider_route
  by_cases hiL : i < st.routes.length
  · rw [if_pos hiL]
    by_cases hin : (st.routes.getD i default).installed = true
    · rw [if_pos hin]
    rw [if_neg hin]
    by_cases hfe : (!(route_feasible env (st.routes.getD i default))) = true
    · rw [if_pos hfe]
    rw [if_neg hfe]
    by_cases hxr : env.find_xroute (st.routes.getD i default).src.pfx
        (st.routes.getD i default).src.plen = true
    · rw [if_pos hxr]
    rw [if_neg hxr]
    cases hfir : find_installed_route st.routes (st.routes.getD i default).src.pfx
        (st.routes.getD i default).src.plen with
    | none =>
      dsimp only
      exact log_change_route env st none i
    | some o =>
      dsimp only
      by_cases h1 : INFINITY ≤ (st.routes.getD i default).metric
      · rw [if_pos h1]
      rw [if_neg h1]
      by_cases h2 : INFINITY ≤ (st.routes.getD o default).metric
      · rw [if_pos h2]
        exact log_change_route env st (some o) i
      rw [if_neg h2]
      by_cases h3 : (st.routes.getD i default).metric + 192 ≤ (st.routes.getD o default).metric
      · rw [if_pos h3]
        exact log_change_route env st (some o) i
      rw [if_neg h3]
      by_cases h4 : (st.routes.getD o default).src ≠ (st.routes.getD i default).src
      · rw [if_pos h4]
      rw [if_neg h4]
      by_cases h5 : (st.routes.getD i default).metric + 96 ≤ (st.routes.getD o default).metric
      · rw [if_pos h5]
        exact log_change_route env st (some o) i
      · rw [if_neg h5]
  · rw [if_neg hiL]

theorem log_route_lost (env : Env) (st : St) (src : Source) (oldmetric : Nat) :
    (route_lost env st src oldmetric).flushedLog = st.flushedLog := by
  unfold route_lost
  cases hfb : find_best_route env st.routes src.pfx src.plen true none with
  | some j =>
    dsimp only
    exact log_consider_route env st j
  | none =>
    dsimp only

theorem log_flush_route (env : Env) (st : St) (n : Nat) (hnL : n < st.routes.length) :
    (flush_route env st n).flushedLog = st.routes.getD n default :: st.flushedLog := by
  unfold flush_route
  rw [if_pos hnL]
  dsimp only
  by_cases hin : (st.routes.getD n default).installed = true
  · rw [if_pos hin, if_pos hin]
    rw [log_route_lost]
    exact log_uninstall_route env _ n
  · rw [if_neg hin, if_neg hin]

theorem drop_loop1_log : ∀ (fuel : Nat) (env : Env) (st st' : St),
    drop_loop1 fuel env st = some st' →
    ∀ r, r ∈ st'.flushedLog → r ∈ st.flushedLog ∨
      ((!r.installed && decide (r.time < env.now - 90)) = true ∨
       (decide (INFINITY ≤ r.metric) && decide (r.time < env.now - 90)) = true) := by
  intro fuel
  induction fuel with
  | zero =>
    intro env st st' h
    exact Option.noConfusion h
  | succ fuel ih =>
    intro env st st' h r hr
    rw [drop_loop1] at h
    by_cases h0 : 0 < st.routes.length
    · rw [if_pos h0] at h
      by_cases hc1 : (!(st.routes.getD 0 default).installed &&
          decide ((st.routes.getD 0 default).time < env.now - 90)) = true
      · rw [if_pos hc1] at h
        rcases ih env _ st' h r hr with hmem | hcond
        · rw [log_flush_route env st 0 h0] at hmem
          rcases List.mem_cons.mp hmem with he | hmem'
          · exact Or.inr (Or.inl (he ▸ hc1))
          · exact Or.inl hmem'
        · exact Or.inr hcond
      · rw [if_neg hc1] at h
        by_cases hc2 : (decide (INFINITY ≤ (st.routes.getD 0 default).metric) &&
            decide ((st.routes.getD 0 default).time < env.now - 90)) = true
        · rw [if_pos hc2] at h
          rcases ih env _ st' h r hr with hmem | hcond
          · rw [log_flush_route env st 0 h0] at hmem
            rcases List.mem_cons.mp hmem with he | hmem'
            · exact Or.inr (Or.inr (he ▸ hc2))
            · exact Or.inl hmem'
          · exact Or.inr hcond
        · rw [if_neg hc2] at h
          exact ih env st st' h r hr
    · rw [if_neg h0] at h
      injection h with h2
      rw [← h2] at hr
      exact Or.inl hr

/-- Claim C6 (amended): every route that a completed `drop_some_routes`
newly flushes is, at the moment it is flushed, either not installed, or
a retraction older than 90 s (the age pass drops those even when
installed), or unfeasible (the single-removal pass can pick an installed
unfeasible route). -/
theorem drop_some_routes_installed_removals (fuel : Nat) (env : Env) (st st' : St)
    (h : drop_some_routes fuel env st = some st') :
    ∀ r, r ∈ st'.flushedLog → r ∈ st.flushedLog ∨
      (r.installed = true →
        (INFINITY ≤ r.metric ∧ r.time < env.now - 90) ∨
        route_feasible env r = false) := by
  intro r hr
  unfold drop_some_routes at h
  cases hl : drop_loop1 fuel env st with
  | none =>
    rw [hl] at h
    exact Option.noConfusion h
  | some st1 =>
    rw [hl] at h
    dsimp only at h
    have base : r ∈ st1.flushedLog →
        r ∈ st.flushedLog ∨
        (r.installed = true →
          (INFINITY ≤ r.metric ∧ r.time < env.now - 90) ∨
          route_feasible env r = false) := by
      intro hm
      rcases drop_loop1_log fuel env st st1 hl r hm with hmem | hc1 | hc2
      · exact Or.inl hmem
      · refine Or.inr ?_
        intro hinst
        have hni : (!r.installed) = true := (Bool.and_eq_true _ _ |>.mp hc1).1
        rw [hinst] at hni
        exact Bool.noConfusion hni
      · refine Or.inr ?_
        intro _
        refine Or.inl ⟨?_, ?_⟩
        · exact of_decide_eq_true (Bool.and_eq_true _ _ |>.mp hc2).1
        · exact of_decide_eq_true (Bool.and_eq_true _ _ |>.mp hc2).2
    by_cases hlt : st1.routes.length < env.maxroutes
    · rw [if_pos hlt] at h
      injection h with h2
      rw [← h2] at hr
      exact base hr
    · rw [if_neg hlt] at h
      cases hf1 : findIdxP (fun x => !(route_feasible env x)) st1.routes with
      | some j =>
        rw [hf1] at h
        injection h with h2
        rw [← h2] at hr
        have hjfact := findIdxP_some _ st1.routes j hf1
        rw [log_flush_route env st1 j hjfact.1] at hr
        rcases List.mem_cons.mp hr with he | hmem'
        · refine Or.inr ?_
          intro _
          refine Or.inr ?_
          have hq := hjfact.2.1
          rw [← he] at hq
          cases hb : route_feasible env r
          · rfl
          · rw [hb] at hq
            exact Bool.noConfusion hq
        · exact base hmem'
      | none =>
        rw [hf1] at h
        cases hf2 : findIdxP (fun x => !x.installed) st1.routes with
        | some j =>
          rw [hf2] at h
          injection h with h2
          rw [← h2] at hr
          have hjfact := findIdxP_some _ st1.routes j hf2
          rw [log_flush_route env st1 j hjfact.1] at hr
          rcases List.mem_cons.mp hr with he | hmem'
          · refine Or.inr ?_
            intro hinst
            have hq := hjfact.2.1
            rw [← he] at hq
            rw [hinst] at hq
            exact Bool.noConfusion hq
          · exact base hmem'
        | none =>
          rw [hf2] at h
          injection h with h2
          rw [← h2] at hr
          exact base hr

/-- An old installed retraction for prefix 2/64. -/
def rC6a : Route :=
  { src := { address := 1, pfx := 2, plen := 64, seqno := 0, metric := 0, time := 0 }
    neigh := 1, nexthop := 5, refmetric := 65535, seqno := 0, metric := 65535
    time := 0, origtime := 0, installed := true }

/-- An old uninstalled route for the different prefix 3/64. -/
def rC6b : Route :=
  { src := { address := 9, pfx := 3, plen := 64, seqno := 0, metric := 0, time := 0 }
    neigh := 2, nexthop := 6, refmetric := 5, seqno := 0, metric := 5
    time := 0, origtime := 0, installed := false }

/-- A capacity-2 environment for the eviction scenario. -/
def envDrop : Env :=
  { oracle := fun _ => KRes.ok
    find_source := fun _ _ _ => none
    find_source_create := fun _ _ _ _ => none
    neighbour_cost := fun _ => 0
    find_xroute := fun _ _ => false
    input_filter := fun _ _ _ _ => 0
    martian_pfx := fun _ _ => false
    hash_id := fun _ => 0
    now := 1000
    route_timeout_delay := 160
    route_gc_delay := 180
    maxroutes := 2 }

/-- The full table holding the installed retraction plus an uninstalled
route. -/
def stDrop : St := { routes := [rC6a, rC6b], kc := 0, flushedLog := [] }

/-- Counterexample to C6 as stated: with the uninstalled route `rC6b` in
the table, `drop_some_routes` flushes the installed route `rC6a` (its
age pass drops old `INFINITY`-metric routes whether installed or not). -/
theorem drop_removes_installed_counterexample :
    (stDrop.routes.getD 1 default).installed = false ∧
    rC6a.installed = true ∧
    drop_some_routes 8 envDrop stDrop =
      some { routes := [], kc := 1, flushedLog := [rC6b, rC6a] } := by
  decide

/-- Witness for the amended C6 at the concrete eviction scenario. -/
theorem drop_some_routes_installed_removals_witness :
    rC6a ∈ stDrop.flushedLog ∨
      (rC6a.installed = true →
        (INFINITY ≤ rC6a.metric ∧ rC6a.time < envDrop.now - 90) ∨
        route_feasible envDrop rC6a = false) :=
  drop_some_routes_installed_removals 8 envDrop stDrop
    { routes := [], kc := 1, flushedLog := [rC6b, rC6a] } (by decide) rC6a (by decide)
